import Mathlib

/-!
Verification development for the two maintenance scripts of the repository:
scripts/maint/update_retrobat_rgs_systems.py  (variant A, the RGS-field sync)
scripts/maint/update_retrobat_systems.py      (variant B, the source-path sync)

Strings are embedded as lists of characters.  Python regular-expression
searching and global substitution for the concrete patterns used by the
scripts (a literal key, optional whitespace, a quoted value, optionally
followed by a comma) are modelled by dedicated scanners with leftmost,
non-overlapping semantics.  Python dict insertion-order semantics are
modelled by an association list where an existing key keeps its position
and is updated in place.
-/

/-- Characters matched by a Python regex whitespace class for text patterns. -/
def pySpace (c : Char) : Bool :=
  c ∈ ([' ', '\t', '\n', '\r', '\x0b', '\x0c', '\x1c', '\x1d', '\x1e', '\x1f',
        '\x85', '\xa0', ' ', ' ', ' ', ' ', ' ',
        ' ', ' ', ' ', ' ', ' ', ' ', ' ',
        ' ', ' ', ' ', ' ', '　'] : List Char)

/-- Match the literal `pat` at the start of `s`; return the rest of `s` on success. -/
def litAt : List Char → List Char → Option (List Char)
  | [], s => some s
  | _ :: _, [] => none
  | p :: ps, c :: cs => if c = p then litAt ps cs else none

/-- Python substring containment: does `pat` occur contiguously inside `s`? -/
def containsStr (pat : List Char) : List Char → Bool
  | [] => (litAt pat []).isSome
  | c :: t => (litAt pat (c :: t)).isSome || containsStr pat t

/-- Match the pattern `{key}\s*"([^"]*)"` at the start of `s` (with `[^"]+`
when `ne` is true).  Returns (whole matched text, captured value, rest). -/
def matchQuotedAt (key : List Char) (ne : Bool) (s : List Char) :
    Option (List Char × List Char × List Char) :=
  match litAt key s with
  | none => none
  | some s1 =>
    let sp := s1.takeWhile pySpace
    match s1.dropWhile pySpace with
    | '"' :: s2 =>
      let v := s2.takeWhile (fun c => c != '"')
      match s2.dropWhile (fun c => c != '"') with
      | '"' :: rest =>
        if ne && v.isEmpty then none
        else some (key ++ sp ++ '"' :: (v ++ ['"']), v, rest)
      | _ => none
    | _ => none

/-- Match the pattern `{key}\s*"[^"]*",` at the start of `s`.
Returns (whole matched text including the comma, rest). -/
def matchQuotedCommaAt (key : List Char) (s : List Char) :
    Option (List Char × List Char) :=
  match matchQuotedAt key false s with
  | some (w, _, ',' :: rest) => some (w ++ [','], rest)
  | _ => none

/-- Leftmost-match search, as performed by re.search: try the matcher at each
position from the left.  (None of the matchers used here can match the empty
string, so the end-of-string position need not be tried.) -/
def reSearch {α : Type} (m : List Char → Option α) : List Char → Option α
  | [] => none
  | c :: t =>
    match m (c :: t) with
    | some r => some r
    | none => reSearch m t

/-- Global substitution, as performed by re.sub: scan from the left, replace
each non-overlapping match, continue after it.  The matcher returns the
replacement text together with the rest of the input after the match.  All
matchers used here consume at least one character per match, so fuel equal to
the length of the input never runs out. -/
def reSubAux (m : List Char → Option (List Char × List Char)) :
    Nat → List Char → List Char
  | _, [] => []
  | 0, s => s
  | fuel + 1, c :: t =>
    match m (c :: t) with
    | some (r, rest) => r ++ reSubAux m fuel rest
    | none => c :: reSubAux m fuel t

def reSub (m : List Char → Option (List Char × List Char)) (s : List Char) :
    List Char :=
  reSubAux m s.length s

/-- Matcher for re.sub of `{key}\s*"[^"]*"` (or `[^"]+`) by a fixed replacement. -/
def mSubQuoted (key : List Char) (ne : Bool) (repl : List Char)
    (s : List Char) : Option (List Char × List Char) :=
  (matchQuotedAt key ne s).map fun x => (repl, x.2.2)

/-- re.sub of the quoted-field pattern by a fixed replacement, applied globally. -/
def subQuoted (key : List Char) (ne : Bool) (repl : List Char) (s : List Char) :
    List Char :=
  reSub (mSubQuoted key ne repl) s

/-- re.search for the quoted-field pattern; returns the captured group. -/
def searchQuoted (key : List Char) (ne : Bool) (s : List Char) :
    Option (List Char) :=
  (reSearch (matchQuotedAt key ne) s).map fun x => x.2.1

/-- Matcher for re.sub of `({key}\s*"[^"]*",)` by backreference-1 followed by
the insertion text. -/
def mSubMarker (key ins : List Char) (s : List Char) :
    Option (List Char × List Char) :=
  (matchQuotedCommaAt key s).map fun x => (x.1 ++ ins, x.2)

/-- re.sub of the marker-comma pattern by itself followed by `ins`, globally. -/
def subMarker (key ins : List Char) (s : List Char) : List Char :=
  reSub (mSubMarker key ins) s

/-- Python str.replace with a non-empty needle: remove/replace every
non-overlapping occurrence, scanning left to right. -/
def pyReplaceAux (old new : List Char) : Nat → List Char → List Char
  | _, [] => []
  | 0, s => s
  | fuel + 1, c :: t =>
    match old, litAt old (c :: t) with
    | _ :: _, some rest => new ++ pyReplaceAux old new fuel rest
    | _, _ => c :: pyReplaceAux old new fuel t

def pyReplace (old new s : List Char) : List Char :=
  pyReplaceAux old new s.length s

/-- One record of the mapping built from a CSV row:
`mappings[system_name] = {full_name, src, retrobat_path}`. -/
structure SysRec where
  full_name : List Char
  src : List Char
  retrobat_path : List Char
deriving DecidableEq, Inhabited

/-- Python dict keyed by the system id, in insertion order. -/
abbrev Mapping := List (List Char × SysRec)

/-- Python dict assignment `d[k] = v`: update an existing key in place
(keeping its original position), otherwise append at the end. -/
def dictInsert (k : List Char) (v : SysRec) : Mapping → Mapping
  | [] => [(k, v)]
  | (a, b) :: t => if a = k then (k, v) :: t else (a, b) :: dictInsert k v t

/-- Python dict lookup `d[k]` / `k in d`. -/
def dictGet? : Mapping → List Char → Option SysRec
  | [], _ => none
  | (a, b) :: t, k => if a = k then some b else dictGet? t k

/-- Iteration order of the dict keys, as in `for system_name in mappings`. -/
def keysOf (m : Mapping) : List (List Char) := m.map Prod.fst

/-- The fixed root segment stripped from the canonical path. -/
def romsLit : List Char := "/roms/".toList

/-- The record stored for one CSV row:
src is `retronas_path.replace('/roms/', '')`. -/
def rowRec (row : List (List Char)) : SysRec :=
  { full_name := row.getD 0 []
    src := pyReplace romsLit [] (row.getD 3 [])
    retrobat_path := row.getD 2 [] }

/-- Processing of one CSV row by read_csv_mappings: rows with fewer than 4
columns are skipped, otherwise `mappings[row[1]] = {...}`. -/
def csvStep (m : Mapping) (row : List (List Char)) : Mapping :=
  if row.length < 4 then m else dictInsert (row.getD 1 []) (rowRec row) m

/-- The mapping built from the CSV rows after the header. -/
def buildMappings (rows : List (List (List Char))) : Mapping :=
  rows.foldl csvStep []

/-- read_csv_mappings on the full list of CSV rows (header included).
`next(reader)` raises StopIteration when the CSV has no rows at all;
this is modelled by the error case. -/
def read_csv_mappings (rows : List (List (List Char))) : Except Unit Mapping :=
  match rows with
  | [] => Except.error ()
  | _ :: rest => Except.ok (buildMappings rest)

/-- Literal key of the source-path field. -/
def srcKey : List Char := "src:".toList

/-- Literal key of the rgs field. -/
def rgsKey : List Char := "retrobat_rgs:".toList

/-- Literal key of the sibling marker field. -/
def retrobatKey : List Char := "retrobat:".toList

/-- Variant A containment pattern 1: `retrobat: "{system_name}"`. -/
def retrobatMatchPat (n : List Char) : List Char :=
  "retrobat: \"".toList ++ n ++ "\"".toList

/-- Variant A containment pattern 2: `src: "{expected_src}"`. -/
def srcMatchPat (p : List Char) : List Char :=
  "src: \"".toList ++ p ++ "\"".toList

/-- Variant A unresolved-report pattern: `retrobat_rgs: "{system_name}"`. -/
def rgsFoundPat (n : List Char) : List Char :=
  "retrobat_rgs: \"".toList ++ n ++ "\"".toList

/-- Replacement text `src: "{new_src}"`. -/
def srcFieldText (p : List Char) : List Char :=
  "src: \"".toList ++ p ++ "\"".toList

/-- Replacement text `retrobat_rgs: "{matched_system}"`. -/
def rgsFieldText (n : List Char) : List Char :=
  "retrobat_rgs: \"".toList ++ n ++ "\"".toList

/-- Insertion text appended after backreference 1:
` retrobat_rgs: "{matched_system}",`. -/
def rgsInsertText (n : List Char) : List Char :=
  " retrobat_rgs: \"".toList ++ n ++ "\",".toList

/-- Variant A matching loop over the mapping keys: for each system name in
iteration order, stop at the first one whose retrobat-field pattern or
src-field pattern occurs in the line. -/
def findMatchA : Mapping → List Char → Option (List Char)
  | [], _ => none
  | (name, r) :: rest, line =>
    if containsStr (retrobatMatchPat name) line then some name
    else if containsStr (srcMatchPat r.src) line then some name
    else findMatchA rest line

/-- Variant A processing of a single line of the target file.  Returns the
new line and the increment of updated_count.  Note that Python tests the
matched name with `if not matched_system`, so an empty system id is treated
as no match at all. -/
def processLineA (maps : Mapping) (line : List Char) : List Char × Nat :=
  match findMatchA maps line with
  | none => (line, 0)
  | some name =>
    if name = [] then (line, 0)
    else
      match dictGet? maps name with
      | none => (line, 0)
      | some r =>
        let new_src := r.src
        let rgs? := searchQuoted rgsKey false line
        match searchQuoted srcKey true line with
        | none => (line, 0)
        | some current_src =>
          let line1 := if current_src ≠ new_src then
              subQuoted srcKey true (srcFieldText new_src) line
            else line
          match rgs? with
          | some current_rgs =>
            if current_rgs ≠ name then
              (subQuoted rgsKey false (rgsFieldText name) line1, 1)
            else (line1, 0)
          | none =>
            if containsStr retrobatKey line1 then
              (subMarker retrobatKey (rgsInsertText name) line1, 1)
            else (line1, 0)

/-- Variant A update_yaml_file: process every line, then compute the
unresolved report from the final file text.  Returns
(new lines, updated_count, not_found). -/
def update_yaml_file_rgs (maps : Mapping) (lines : List (List Char)) :
    List (List Char) × Nat × List (List Char) :=
  let results := lines.map (processLineA maps)
  let newLines := results.map Prod.fst
  let content := newLines.flatten
  let nf := (keysOf maps).filter fun n => !containsStr (rgsFoundPat n) content
  (newLines, (results.map Prod.snd).sum, nf)

/-- Return value of main once both input files exist: 1 when the unresolved
report is non-empty, 0 otherwise. -/
def mainStatus (nf : List (List Char)) : Nat := if nf = [] then 0 else 1

/-- Variant B processing of a single line.  Returns the new line, the
increment of updated_count, and whether the missing-src warning was printed. -/
def processLineB (maps : Mapping) (line : List Char) : List Char × Nat × Bool :=
  match searchQuoted retrobatKey true line with
  | none => (line, 0, false)
  | some n =>
    match dictGet? maps n with
    | none => (line, 0, false)
    | some r =>
      match searchQuoted srcKey true line with
      | none => (line, 0, true)
      | some current_src =>
        if current_src ≠ r.src then
          (subQuoted srcKey true (srcFieldText r.src) line, 1, false)
        else (line, 0, false)

/-- Variant B update_yaml_file.  Returns (new lines, updated_count, not_found);
the not_found check uses the pattern `retrobat: "{system_name}"`. -/
def update_yaml_file_src (maps : Mapping) (lines : List (List Char)) :
    List (List Char) × Nat × List (List Char) :=
  let results := lines.map (processLineB maps)
  let newLines := results.map Prod.fst
  let content := newLines.flatten
  let nf := (keysOf maps).filter fun n => !containsStr (retrobatMatchPat n) content
  (newLines, (results.map fun x => x.2.1).sum, nf)

/-- Spec-side description: remove the occurrences of a needle from the ids of
the valid (4+ column) rows, in row order. -/
def validKeys : List (List (List Char)) → List (List Char)
  | [] => []
  | r :: rest => if r.length < 4 then validKeys rest else r.getD 1 [] :: validKeys rest

/-- Spec-side description of dict key order: first occurrence wins, skipping
keys already seen. -/
def firstDedupFrom (seen : List (List Char)) : List (List Char) → List (List Char)
  | [] => []
  | k :: t => if k ∈ seen then firstDedupFrom seen t else k :: firstDedupFrom (k :: seen) t

def firstDedup (l : List (List Char)) : List (List Char) := firstDedupFrom [] l

/-- Spec-side description of dict values: the record of the last valid row
carrying the id. -/
def lastRecFor (id : List Char) : List (List (List Char)) → Option SysRec
  | [] => none
  | r :: rest =>
    match lastRecFor id rest with
    | some x => some x
    | none =>
      if 4 ≤ r.length ∧ r.getD 1 [] = id then some (rowRec r) else none

/-- A variant-A line is synchronized when any match it produces leads to the
no-change branches: expected src value already present and either the rgs
field already holds the matched id, or there is no rgs field and no marker
key on the line. -/
def syncedA (maps : Mapping) (line : List Char) : Bool :=
  match findMatchA maps line with
  | none => true
  | some name =>
    if name = [] then true
    else
      match dictGet? maps name with
      | none => true
      | some r =>
        match searchQuoted srcKey true line with
        | none => true
        | some cs =>
          cs = r.src &&
            match searchQuoted rgsKey false line with
            | some v => v = name
            | none => !containsStr retrobatKey line

/-- A variant-B line is synchronized when any known id it carries already has
the expected src value (or no src field, which is only warned about). -/
def syncedB (maps : Mapping) (line : List Char) : Bool :=
  match searchQuoted retrobatKey true line with
  | none => true
  | some n =>
    match dictGet? maps n with
    | none => true
    | some r =>
      match searchQuoted srcKey true line with
      | none => true
      | some cs => cs = r.src

/-- The spec section 8 example record. -/
def recSega : SysRec :=
  { full_name := "Sega 32X".toList, src := "sega/sega32x".toList,
    retrobat_path := "r32x".toList }

/-- Concrete single-entry mapping used by the concrete test inputs below
(the spec section 8 example system). -/
def mSega : Mapping := [("sega32x".toList, recSega)]

/-- A matched line whose marker field is not followed by a comma. -/
def lineNoComma : List Char :=
  "  - \x7b src: \"sega/sega32x\", retrobat: \"sega32x\" \x7d".toList

/-- A line whose rgs field already holds the matched id but whose src differs. -/
def lineRgsOldSrc : List Char :=
  "  - \x7b src: \"old\", retrobat: \"sega32x\", retrobat_rgs: \"sega32x\" \x7d,".toList

/-- A fully synchronized variant-A line. -/
def lineSynced : List Char :=
  "  - \x7b src: \"sega/sega32x\", retrobat: \"sega32x\", retrobat_rgs: \"sega32x\" \x7d,".toList

/-- A fully synchronized variant-B line. -/
def lineSyncedB : List Char :=
  "  - \x7b retrobat: \"sega32x\", src: \"sega/sega32x\" \x7d,".toList

/-- A record shared by two CSV ids, giving both the same normalized path. -/
def recV : SysRec :=
  { full_name := "V system".toList, src := "vpath".toList,
    retrobat_path := "rv".toList }

/-- Mapping with two ids sharing the normalized path vpath; id c precedes a. -/
def mTwo : Mapping := [("c".toList, recV), ("a".toList, recV)]

/-- A line matched to id a on the first run; once its src is rewritten to
vpath, the second run matches id c first through the src pattern. -/
def lineTwoIds : List Char :=
  "- retrobat: \"a\", src: \"Q\", retrobat_rgs: \"a\",".toList

/-- The spec section 8 example line: stale src, marker with comma, no rgs. -/
def lineStale : List Char :=
  "  - \x7b src: \"sega/oldpath\", retrobat: \"sega32x\", \x7d,".toList

/-- A variant-B line with a stale src value. -/
def lineStaleB : List Char :=
  "  - \x7b retrobat: \"sega32x\", src: \"sega/old\" \x7d,".toList

/-! ### Helper lemmas about the string machinery -/

theorem litAt_eq_some {p : List Char} :
    ∀ {s r : List Char}, litAt p s = some r ↔ s = p ++ r := by
  induction p with
  | nil => intro s r; simp [litAt]
  | cons a ps ih =>
    intro s r
    cases s with
    | nil => simp [litAt]
    | cons c cs =>
      by_cases h : c = a
      · subst h
        simp [litAt, ih]
      · simp [litAt, h, Ne.symm h]

theorem litAt_append (p s : List Char) : litAt p (p ++ s) = some s :=
  litAt_eq_some.mpr rfl

theorem containsStr_here (p v : List Char) : containsStr p (p ++ v) = true := by
  cases hw : p ++ v with
  | nil =>
    have hp : p = [] := (List.append_eq_nil.mp hw).1
    subst hp
    simp [containsStr, litAt]
  | cons c t =>
    have hl : litAt p (c :: t) = some v := by rw [← hw]; exact litAt_append p v
    simp [containsStr, hl]

theorem containsStr_of_parts {p u v s : List Char} (h : s = u ++ p ++ v) :
    containsStr p s = true := by
  subst h
  induction u with
  | nil => simpa using containsStr_here p v
  | cons a u ih =>
    simp only [List.cons_append, containsStr, Bool.or_eq_true]
    exact Or.inr (by simpa [List.append_assoc] using ih)

theorem parts_of_containsStr {p : List Char} :
    ∀ {s : List Char}, containsStr p s = true → ∃ u v, s = u ++ p ++ v := by
  intro s
  induction s with
  | nil =>
    intro h
    simp only [containsStr] at h
    cases hl : litAt p [] with
    | none => rw [hl] at h; simp at h
    | some r =>
      refine ⟨[], r, ?_⟩
      have hs := litAt_eq_some.mp hl
      rw [List.nil_append]
      exact hs
  | cons c t ih =>
    intro h
    simp only [containsStr, Bool.or_eq_true] at h
    rcases h with h | h
    · cases hl : litAt p (c :: t) with
      | none => rw [hl] at h; simp at h
      | some r =>
        refine ⟨[], r, ?_⟩
        have hs := litAt_eq_some.mp hl
        rw [List.nil_append]
        exact hs
    · rcases ih h with ⟨u, v, huv⟩
      exact ⟨c :: u, v, by simp [huv]⟩

theorem containsStr_mono {p x y s : List Char}
    (h : containsStr (x ++ p ++ y) s = true) : containsStr p s = true := by
  rcases parts_of_containsStr h with ⟨u, v, huv⟩
  refine containsStr_of_parts (u := u ++ x) (v := y ++ v) ?_
  rw [huv]
  simp [List.append_assoc]

theorem reSearch_map {α β : Type} (m : List Char → Option α) (g : α → β) :
    ∀ s : List Char, reSearch (fun t => (m t).map g) s = (reSearch m s).map g := by
  intro s
  induction s with
  | nil => rfl
  | cons c t ih =>
    simp only [reSearch]
    cases hm : m (c :: t) with
    | some r => simp [hm]
    | none => simp [hm, ih]

theorem reSubAux_eq_self {m : List Char → Option (List Char × List Char)} :
    ∀ (f : Nat) (s : List Char), reSearch m s = none → reSubAux m f s = s := by
  intro f
  induction f with
  | zero =>
    intro s _
    cases s <;> rfl
  | succ f ih =>
    intro s h
    cases s with
    | nil => rfl
    | cons c t =>
      simp only [reSearch] at h
      cases hm : m (c :: t) with
      | some r => rw [hm] at h; simp at h
      | none =>
        rw [hm] at h
        simp only [reSubAux, hm]
        rw [ih t h]

theorem pyReplaceAux_eq_self {old new : List Char} (hold : old ≠ []) :
    ∀ (f : Nat) {s : List Char}, containsStr old s = false →
      pyReplaceAux old new f s = s := by
  intro f
  induction f with
  | zero => intro s _; cases s <;> rfl
  | succ f ih =>
    intro s h
    cases s with
    | nil => rfl
    | cons c t =>
      simp only [containsStr, Bool.or_eq_false_iff] at h
      obtain ⟨h1, h2⟩ := h
      obtain ⟨a, os, rfl⟩ : ∃ a os, old = a :: os := by
        cases old with
        | nil => exact absurd rfl hold
        | cons a os => exact ⟨a, os, rfl⟩
      cases hl : litAt (a :: os) (c :: t) with
      | some r => rw [hl] at h1; simp at h1
      | none =>
        simp only [pyReplaceAux, hl]
        rw [ih h2]

/-! ### Helper lemmas about the dict model -/

theorem dictGet_insert (k q : List Char) (v : SysRec) :
    ∀ m : Mapping, dictGet? (dictInsert k v m) q =
      if k = q then some v else dictGet? m q := by
  intro m
  induction m with
  | nil =>
    by_cases hkq : k = q <;> simp [dictInsert, dictGet?, hkq]
  | cons hd tl ih =>
    obtain ⟨a, b⟩ := hd
    by_cases hak : a = k
    · subst hak
      by_cases haq : a = q <;> simp [dictInsert, dictGet?, haq]
    · by_cases haq : a = q
      · subst haq
        have hkq : ¬ (k = a) := fun h => hak h.symm
        simp [dictInsert, dictGet?, hak, hkq]
      · simp [dictInsert, dictGet?, hak, haq, ih]

theorem keysOf_insert (k : List Char) (v : SysRec) :
    ∀ m : Mapping, keysOf (dictInsert k v m) =
      if k ∈ keysOf m then keysOf m else keysOf m ++ [k] := by
  intro m
  induction m with
  | nil => simp [dictInsert, keysOf]
  | cons hd tl ih =>
    obtain ⟨a, b⟩ := hd
    by_cases hak : a = k
    · subst hak
      simp [dictInsert, keysOf]
    · have hka : ¬ (k = a) := fun h => hak h.symm
      have h1 : dictInsert k v ((a, b) :: tl) = (a, b) :: dictInsert k v tl := by
        simp [dictInsert, hak]
      have h2 : keysOf ((a, b) :: dictInsert k v tl) = a :: keysOf (dictInsert k v tl) := rfl
      have h3 : keysOf ((a, b) :: tl) = a :: keysOf tl := rfl
      rw [h1, h2, h3, ih]
      by_cases hmem : k ∈ keysOf tl
      · simp [hmem, hka]
      · simp [hmem, hka]

/-! ### Helper lemmas about variant A matching -/

theorem findMatchA_eq_findq (line : List Char) :
    ∀ maps : Mapping, findMatchA maps line =
      (maps.find? fun p =>
        containsStr (retrobatMatchPat p.1) line ||
          containsStr (srcMatchPat p.2.src) line).map Prod.fst := by
  intro maps
  induction maps with
  | nil => rfl
  | cons hd tl ih =>
    obtain ⟨name, r⟩ := hd
    by_cases h1 : containsStr (retrobatMatchPat name) line = true
    · rw [List.find?_cons_of_pos _ (by simp [h1])]
      simp [findMatchA, h1]
    · by_cases h2 : containsStr (srcMatchPat r.src) line = true
      · rw [List.find?_cons_of_pos _ (by simp [h2])]
        simp [findMatchA, h1, h2]
      · rw [List.find?_cons_of_neg _ (by simp [h1, h2])]
        simp [findMatchA, h1, h2, ih]

theorem findMatchA_isSome_iff (maps : Mapping) (line : List Char) :
    (∃ n, findMatchA maps line = some n) ↔
      ∃ p, p ∈ maps ∧ (containsStr (retrobatMatchPat p.1) line ||
        containsStr (srcMatchPat p.2.src) line) = true := by
  constructor
  · intro ⟨n, hn⟩
    rw [findMatchA_eq_findq] at hn
    cases hf : maps.find? (fun p =>
        containsStr (retrobatMatchPat p.1) line ||
          containsStr (srcMatchPat p.2.src) line) with
    | none => rw [hf] at hn; simp at hn
    | some q =>
      exact ⟨q, List.mem_of_find?_eq_some hf, by simpa using List.find?_some hf⟩
  · intro ⟨p, hp, hpred⟩
    rw [findMatchA_eq_findq]
    have hsome : (maps.find? (fun p =>
        containsStr (retrobatMatchPat p.1) line ||
          containsStr (srcMatchPat p.2.src) line)).isSome = true := by
      rw [List.find?_isSome]
      exact ⟨p, hp, hpred⟩
    cases hf : maps.find? (fun p =>
        containsStr (retrobatMatchPat p.1) line ||
          containsStr (srcMatchPat p.2.src) line) with
    | none => rw [hf] at hsome; simp at hsome
    | some q => exact ⟨q.1, rfl⟩

/-! ### Substitutions are the identity when the pattern occurs nowhere -/

theorem reSearch_none_of_searchQuoted_none {key : List Char} {ne : Bool}
    {s : List Char} (h : searchQuoted key ne s = none) :
    reSearch (matchQuotedAt key ne) s = none := by
  unfold searchQuoted at h
  cases hr : reSearch (matchQuotedAt key ne) s with
  | none => rfl
  | some x => rw [hr] at h; simp at h

theorem subQuoted_eq_self {key : List Char} {ne : Bool} {repl : List Char}
    {s : List Char} (h : reSearch (matchQuotedAt key ne) s = none) :
    subQuoted key ne repl s = s := by
  have hm : reSearch (mSubQuoted key ne repl) s = none := by
    have heq := reSearch_map (matchQuotedAt key ne)
      (fun x => (repl, x.2.2)) s
    have : reSearch (mSubQuoted key ne repl) s =
        (reSearch (matchQuotedAt key ne) s).map (fun x => (repl, x.2.2)) := heq
    rw [this, h]
    rfl
  exact reSubAux_eq_self _ s hm

theorem subMarker_eq_self {key ins s : List Char}
    (h : reSearch (matchQuotedCommaAt key) s = none) :
    subMarker key ins s = s := by
  have hm : reSearch (mSubMarker key ins) s = none := by
    have heq := reSearch_map (matchQuotedCommaAt key)
      (fun x => (x.1 ++ ins, x.2)) s
    have : reSearch (mSubMarker key ins) s =
        (reSearch (matchQuotedCommaAt key) s).map (fun x => (x.1 ++ ins, x.2)) := heq
    rw [this, h]
    rfl
  exact reSubAux_eq_self _ s hm

/-! ### Synchronized lines are fixed points of the line patchers -/

theorem processLineA_noop {maps : Mapping} {line : List Char}
    (h : syncedA maps line = true) : processLineA maps line = (line, 0) := by
  unfold syncedA at h
  split at h
  next hf => simp [processLineA, hf]
  next name hf =>
    by_cases hne : name = []
    · simp [processLineA, hf, hne]
    · rw [if_neg hne] at h
      split at h
      next hg => simp [processLineA, hf, hne, hg]
      next r hg =>
        split at h
        next hs => simp [processLineA, hf, hne, hg, hs]
        next cs hs =>
          simp only [Bool.and_eq_true, decide_eq_true_eq] at h
          obtain ⟨hcs, hrest⟩ := h
          split at hrest
          next v hr =>
            have hv : v = name := by simpa using hrest
            simp [processLineA, hf, hne, hg, hs, hr, hcs, hv]
          next hr =>
            have hnc : containsStr retrobatKey line = false := by
              simpa using hrest
            simp [processLineA, hf, hne, hg, hs, hr, hcs, hnc]

theorem processLineB_noop {maps : Mapping} {line : List Char}
    (h : syncedB maps line = true) :
    (processLineB maps line).1 = line ∧ (processLineB maps line).2.1 = 0 := by
  unfold syncedB at h
  split at h
  next hf => simp [processLineB, hf]
  next n hf =>
    split at h
    next hg => simp [processLineB, hf, hg]
    next r hg =>
      split at h
      next hs => simp [processLineB, hf, hg, hs]
      next cs hs =>
        have hcs : cs = r.src := by simpa using h
        simp [processLineB, hf, hg, hs, hcs]

theorem mapPairs_noop {f : List Char → List Char × Nat} :
    ∀ lines : List (List Char), (∀ l ∈ lines, f l = (l, 0)) →
      (lines.map f).map Prod.fst = lines ∧
        ((lines.map f).map Prod.snd).sum = 0 := by
  intro lines h
  induction lines with
  | nil => simp
  | cons a t ih =>
    have ha := h a (List.mem_cons_self a t)
    have ht : ∀ l ∈ t, f l = (l, 0) := fun l hl => h l (List.mem_cons_of_mem a hl)
    obtain ⟨ih1, ih2⟩ := ih ht
    have ih2c : (List.map (Prod.snd ∘ f) t).sum = 0 := by
      rw [← List.map_map]; exact ih2
    simp [ha, ih1, ih2c]

theorem mapTriples_noop {f : List Char → List Char × Nat × Bool} :
    ∀ lines : List (List Char), (∀ l ∈ lines, (f l).1 = l ∧ (f l).2.1 = 0) →
      (lines.map f).map Prod.fst = lines ∧
        ((lines.map f).map (fun x => x.2.1)).sum = 0 := by
  intro lines h
  induction lines with
  | nil => simp
  | cons a t ih =>
    have ha := h a (List.mem_cons_self a t)
    have ht : ∀ l ∈ t, (f l).1 = l ∧ (f l).2.1 = 0 :=
      fun l hl => h l (List.mem_cons_of_mem a hl)
    obtain ⟨ih1, ih2⟩ := ih ht
    have ih2c : (List.map ((fun x => x.2.1) ∘ f) t).sum = 0 := by
      rw [← List.map_map]; exact ih2
    simp [ha.1, ha.2, ih1, ih2c]

theorem update_rgs_noop {maps : Mapping} {lines : List (List Char)}
    (h : ∀ l ∈ lines, syncedA maps l = true) :
    (update_yaml_file_rgs maps lines).1 = lines ∧
      (update_yaml_file_rgs maps lines).2.1 = 0 := by
  have h2 : ∀ l ∈ lines, processLineA maps l = (l, 0) :=
    fun l hl => processLineA_noop (h l hl)
  obtain ⟨e1, e2⟩ := mapPairs_noop lines h2
  constructor
  · simpa [update_yaml_file_rgs] using e1
  · simpa [update_yaml_file_rgs] using e2

theorem update_src_noop {maps : Mapping} {lines : List (List Char)}
    (h : ∀ l ∈ lines, syncedB maps l = true) :
    (update_yaml_file_src maps lines).1 = lines ∧
      (update_yaml_file_src maps lines).2.1 = 0 := by
  have h2 : ∀ l ∈ lines, (processLineB maps l).1 = l ∧ (processLineB maps l).2.1 = 0 :=
    fun l hl => processLineB_noop (h l hl)
  obtain ⟨e1, e2⟩ := mapTriples_noop lines h2
  constructor
  · simpa [update_yaml_file_src] using e1
  · simpa [update_yaml_file_src] using e2

/-! ### CSV-order lemmas for the mapping construction -/

theorem firstDedupFrom_congr :
    ∀ (l : List (List Char)) {s1 s2 : List (List Char)},
      (∀ x, x ∈ s1 ↔ x ∈ s2) →
      firstDedupFrom s1 l = firstDedupFrom s2 l := by
  intro l
  induction l with
  | nil => intro s1 s2 _; rfl
  | cons k t ih =>
    intro s1 s2 h
    by_cases hk : k ∈ s1
    · simp only [firstDedupFrom, if_pos hk, if_pos ((h k).mp hk)]
      exact ih h
    · simp only [firstDedupFrom, if_neg hk, if_neg (fun hx => hk ((h k).mpr hx))]
      refine congrArg (k :: ·) (ih ?_)
      intro x
      simp only [List.mem_cons]
      exact or_congr Iff.rfl (h x)

theorem keysOf_foldl :
    ∀ (rows : List (List (List Char))) (acc : Mapping),
      keysOf (rows.foldl csvStep acc) =
        keysOf acc ++ firstDedupFrom (keysOf acc) (validKeys rows) := by
  intro rows
  induction rows with
  | nil => intro acc; simp [validKeys, firstDedupFrom]
  | cons r rest ih =>
    intro acc
    by_cases hv : r.length < 4
    · simp only [List.foldl_cons, csvStep, if_pos hv, validKeys]
      exact ih acc
    · simp only [List.foldl_cons, csvStep, if_neg hv]
      rw [ih (dictInsert (r.getD 1 []) (rowRec r) acc), keysOf_insert]
      have hvk : validKeys (r :: rest) = r.getD 1 [] :: validKeys rest := by
        simp [validKeys, hv]
      rw [hvk]
      by_cases hmem : r.getD 1 [] ∈ keysOf acc
      · rw [if_pos hmem]
        simp only [firstDedupFrom, if_pos hmem]
      · rw [if_neg hmem]
        simp only [firstDedupFrom, if_neg hmem]
        rw [List.append_assoc, List.singleton_append]
        refine congrArg (keysOf acc ++ ·) (congrArg (r.getD 1 [] :: ·) ?_)
        refine firstDedupFrom_congr _ ?_
        intro x
        simp only [List.mem_append, List.mem_singleton, List.mem_cons,
          List.not_mem_nil, or_false]
        exact or_comm

theorem dictGet_foldl :
    ∀ (rows : List (List (List Char))) (acc : Mapping) (id : List Char),
      dictGet? (rows.foldl csvStep acc) id =
        match lastRecFor id rows with
        | some x => some x
        | none => dictGet? acc id := by
  intro rows
  induction rows with
  | nil => intro acc id; rfl
  | cons r rest ih =>
    intro acc id
    simp only [List.foldl_cons]
    rw [ih]
    simp only [lastRecFor]
    cases hl : lastRecFor id rest with
    | some x => rfl
    | none =>
      by_cases hv : 4 ≤ r.length ∧ r.getD 1 [] = id
      · obtain ⟨hlen, hkey⟩ := hv
        have hnotlt : ¬ (r.length < 4) := by omega
        rw [if_pos ⟨hlen, hkey⟩]
        simp only [csvStep, if_neg hnotlt]
        rw [dictGet_insert, if_pos hkey]
      · rw [if_neg hv]
        by_cases hlen : r.length < 4
        · simp [csvStep, hlen]
        · have hkey : ¬ (r.getD 1 [] = id) := by
            intro hk
            exact hv ⟨by omega, hk⟩
          simp only [csvStep, if_neg hlen]
          rw [dictGet_insert, if_neg hkey]

/-! ### Stripping a leading occurrence with str.replace -/

theorem pyReplace_strip {old new rest : List Char} (hold : old ≠ [])
    (h : containsStr old rest = false) :
    pyReplace old new (old ++ rest) = new ++ rest := by
  obtain ⟨a, os, rfl⟩ : ∃ a os, old = a :: os := by
    cases old with
    | nil => exact absurd rfl hold
    | cons a os => exact ⟨a, os, rfl⟩
  have hlen : ((a :: os) ++ rest).length = ((os ++ rest).length) + 1 := by
    simp
  unfold pyReplace
  rw [hlen]
  have hcons : (a :: os) ++ rest = a :: (os ++ rest) := rfl
  rw [hcons]
  have hlit : litAt (a :: os) (a :: (os ++ rest)) = some rest := by
    rw [← hcons]
    exact litAt_append _ _
  simp only [pyReplaceAux, hlit]
  rw [pyReplaceAux_eq_self (List.cons_ne_nil a os) _ h]

/-! ### Claims -/

/-- Claim C1, counterexample: the canonical path `/roms/a/roms/b` stores the
normalized path `ab` (every occurrence of `/roms/` is removed), which differs
from `a/roms/b`, the path with the root prefix removed exactly once. -/
theorem claim_c1_counterexample :
    read_csv_mappings
        [["h".toList],
         ["A".toList, "b".toList, "c".toList, "/roms/a/roms/b".toList]] =
      Except.ok [("b".toList,
        { full_name := "A".toList, src := "ab".toList,
          retrobat_path := "c".toList })] ∧
    "ab".toList ≠ "a/roms/b".toList := by
  constructor
  · rfl
  · decide

/-- Claim C1, amended: for a valid CSV row the stored normalized path is the
canonical path with every non-overlapping occurrence of `/roms/` removed,
left to right; this coincides with removing the leading prefix exactly once
whenever `/roms/` does not occur in the remainder of the path. -/
theorem claim_c1_amended (hdr : List (List Char)) (full name rb rest : List Char)
    (h : containsStr romsLit rest = false) :
    read_csv_mappings [hdr, [full, name, rb, romsLit ++ rest]] =
      Except.ok [(name,
        { full_name := full, src := rest, retrobat_path := rb })] := by
  have hsrc : pyReplace romsLit [] (romsLit ++ rest) = rest := by
    rw [pyReplace_strip (by decide) h]
    rfl
  have hlen : ¬ ([full, name, rb, romsLit ++ rest].length < 4) := by simp
  unfold read_csv_mappings buildMappings
  simp only [List.foldl_cons, List.foldl_nil, csvStep, if_neg hlen]
  simp [dictInsert, rowRec, List.getD, hsrc]

/-- Claim C1, witness for the amended theorem at the path `/roms/sega/sega32x`. -/
theorem claim_c1_amended_witness :
    containsStr romsLit "sega/sega32x".toList = false ∧
    read_csv_mappings
        [["h".toList],
         ["Sega 32X".toList, "sega32x".toList, "r32x".toList,
          romsLit ++ "sega/sega32x".toList]] =
      Except.ok [("sega32x".toList,
        { full_name := "Sega 32X".toList, src := "sega/sega32x".toList,
          retrobat_path := "r32x".toList })] :=
  ⟨by decide,
   claim_c1_amended ["h".toList] "Sega 32X".toList "sega32x".toList "r32x".toList
     "sega/sega32x".toList (by decide)⟩

/-- Claim C2: a line is matched to a system id exactly when it contains the
quoted marker-field pattern for that id or the quoted source-path pattern for
that id's normalized path, and the first id in the mapping's iteration order
whose pattern occurs wins. -/
theorem claim_c2 (maps : Mapping) (line : List Char) :
    findMatchA maps line =
      (maps.find? fun p =>
        containsStr (retrobatMatchPat p.1) line ||
          containsStr (srcMatchPat p.2.src) line).map Prod.fst ∧
    ((∃ n, findMatchA maps line = some n) ↔
      ∃ p, p ∈ maps ∧ (containsStr (retrobatMatchPat p.1) line ||
        containsStr (srcMatchPat p.2.src) line) = true) :=
  ⟨findMatchA_eq_findq line maps, findMatchA_isSome_iff maps line⟩

/-- Claim C5, counterexample: reading a CSV with no rows at all raises
StopIteration from the unconditional header skip, so CSV reading is not
exception-free for every CSV content. -/
theorem claim_c5_counterexample :
    read_csv_mappings [] = Except.error () := rfl

/-- Claim C5, amended: for every CSV that has at least one row (the header),
reading returns normally; rows with fewer than four columns are skipped
rather than raising.  The empty CSV raises StopIteration. -/
theorem claim_c5_amended (rows : List (List (List Char))) (h : rows ≠ []) :
    ∃ m, read_csv_mappings rows = Except.ok m := by
  cases rows with
  | nil => exact absurd rfl h
  | cons r rest => exact ⟨buildMappings rest, rfl⟩

/-- Claim C5, witness for the amended theorem on a header-only CSV. -/
theorem claim_c5_amended_witness :
    ([["h".toList]] : List (List (List Char))) ≠ [] ∧
    ∃ m, read_csv_mappings [["h".toList]] = Except.ok m :=
  ⟨by decide, claim_c5_amended [["h".toList]] (by decide)⟩

/-- Claim C7: a line that matches no known system id is returned unmodified,
character for character, by both per-line patchers (variant A: no id matches;
variant B: no marker field, or the captured id is unknown). -/
theorem claim_c7 (maps : Mapping) (line : List Char) :
    (findMatchA maps line = none → processLineA maps line = (line, 0)) ∧
    (searchQuoted retrobatKey true line = none →
      processLineB maps line = (line, 0, false)) ∧
    (∀ n, searchQuoted retrobatKey true line = some n →
      dictGet? maps n = none → processLineB maps line = (line, 0, false)) := by
  refine ⟨?_, ?_, ?_⟩
  · intro h
    simp [processLineA, h]
  · intro h
    simp [processLineB, h]
  · intro n h1 h2
    simp [processLineB, h1, h2]

/-- Claim C7, witness: an unmatched line is returned untouched by both
variants, and an unknown quoted id is skipped by variant B. -/
theorem claim_c7_witness :
    (findMatchA [] "plain text".toList = none ∧
      processLineA [] "plain text".toList = ("plain text".toList, 0)) ∧
    (searchQuoted retrobatKey true "plain text".toList = none ∧
      processLineB [] "plain text".toList = ("plain text".toList, 0, false)) ∧
    (searchQuoted retrobatKey true "x retrobat: \"zzz\"".toList =
        some "zzz".toList ∧
      dictGet? [] "zzz".toList = none ∧
      processLineB [] "x retrobat: \"zzz\"".toList =
        ("x retrobat: \"zzz\"".toList, 0, false)) :=
  ⟨⟨by decide, (claim_c7 [] "plain text".toList).1 (by decide)⟩,
   ⟨by decide, (claim_c7 [] "plain text".toList).2.1 (by decide)⟩,
   ⟨by decide, by decide,
    (claim_c7 [] "x retrobat: \"zzz\"".toList).2.2 "zzz".toList
      (by decide) (by decide)⟩⟩

/-- Claim C10: the mapping preserves CSV row order (first insertion position
kept, last duplicate row wins for the record), and variant A matching is the
first id in that order whose pattern occurs in the line, so the patch output
is a deterministic function of the CSV and target file contents. -/
theorem claim_c10 (rows : List (List (List Char))) (id : List Char)
    (line : List Char) :
    keysOf (buildMappings rows) = firstDedup (validKeys rows) ∧
    dictGet? (buildMappings rows) id = lastRecFor id rows ∧
    findMatchA (buildMappings rows) line =
      ((buildMappings rows).find? fun p =>
        containsStr (retrobatMatchPat p.1) line ||
          containsStr (srcMatchPat p.2.src) line).map Prod.fst := by
  refine ⟨?_, ?_, findMatchA_eq_findq line (buildMappings rows)⟩
  · have hk := keysOf_foldl rows []
    simpa [buildMappings, keysOf, firstDedup] using hk
  · have hg := dictGet_foldl rows [] id
    rw [buildMappings] at *
    rw [hg]
    cases lastRecFor id rows <;> rfl

/-- Claim C3, counterexample: on a matched, rgs-less line whose marker field
is not followed by a comma, nothing is inserted (the line is returned
unchanged, still without any rgs field) yet the added count increments. -/
theorem claim_c3_counterexample :
    findMatchA mSega lineNoComma = some "sega32x".toList ∧
    searchQuoted rgsKey false lineNoComma = none ∧
    containsStr rgsKey lineNoComma = false ∧
    processLineA mSega lineNoComma = (lineNoComma, 1) := by
  decide

/-- Claim C3, amended: on a matched line without an rgs field but with a
source-path field, the new rgs field is inserted only if the exact
marker-comma pattern occurs (when the pattern occurs nowhere the line is left
as the src-updated line), but the added count increments exactly when the
line merely contains the marker key substring, even if nothing is inserted. -/
theorem claim_c3_amended (maps : Mapping) (line name : List Char) (r : SysRec)
    (cs : List Char)
    (hf : findMatchA maps line = some name) (hne : name ≠ [])
    (hg : dictGet? maps name = some r)
    (hrgs : searchQuoted rgsKey false line = none)
    (hsrc : searchQuoted srcKey true line = some cs) :
    ((processLineA maps line).2 = 1 ↔
      containsStr retrobatKey
        (if cs ≠ r.src then subQuoted srcKey true (srcFieldText r.src) line
         else line) = true) ∧
    (reSearch (matchQuotedCommaAt retrobatKey)
        (if cs ≠ r.src then subQuoted srcKey true (srcFieldText r.src) line
         else line) = none →
      (processLineA maps line).1 =
        (if cs ≠ r.src then subQuoted srcKey true (srcFieldText r.src) line
         else line)) := by
  set line1 :=
    (if cs ≠ r.src then subQuoted srcKey true (srcFieldText r.src) line
     else line) with hl1
  by_cases hc : containsStr retrobatKey line1 = true
  · constructor
    · simp [processLineA, hf, hne, hg, hrgs, hsrc, ← hl1, hc]
    · intro hnone
      have hsub : subMarker retrobatKey (rgsInsertText name) line1 = line1 :=
        subMarker_eq_self hnone
      simp [processLineA, hf, hne, hg, hrgs, hsrc, ← hl1, hc, hsub]
  · constructor
    · simp [processLineA, hf, hne, hg, hrgs, hsrc, ← hl1, hc]
    · intro _
      simp [processLineA, hf, hne, hg, hrgs, hsrc, ← hl1, hc]

/-- Claim C3, witness for the amended theorem on the comma-less line. -/
theorem claim_c3_amended_witness :
    (findMatchA mSega lineNoComma = some "sega32x".toList ∧
     "sega32x".toList ≠ ([] : List Char) ∧
     dictGet? mSega "sega32x".toList = some
       recSega ∧
     searchQuoted rgsKey false lineNoComma = none ∧
     searchQuoted srcKey true lineNoComma = some "sega/sega32x".toList) ∧
    (((processLineA mSega lineNoComma).2 = 1 ↔
      containsStr retrobatKey
        (if "sega/sega32x".toList ≠
            (recSega : SysRec).src then
          subQuoted srcKey true
            (srcFieldText (recSega : SysRec).src) lineNoComma
         else lineNoComma) = true) ∧
     (reSearch (matchQuotedCommaAt retrobatKey)
        (if "sega/sega32x".toList ≠
            (recSega : SysRec).src then
          subQuoted srcKey true
            (srcFieldText (recSega : SysRec).src) lineNoComma
         else lineNoComma) = none →
      (processLineA mSega lineNoComma).1 =
        (if "sega/sega32x".toList ≠
            (recSega : SysRec).src then
          subQuoted srcKey true
            (srcFieldText (recSega : SysRec).src) lineNoComma
         else lineNoComma))) :=
  ⟨⟨by decide, by decide, by decide, by decide, by decide⟩,
   claim_c3_amended mSega lineNoComma "sega32x".toList
     recSega
     "sega/sega32x".toList (by decide) (by decide) (by decide) (by decide)
     (by decide)⟩

/-- Claim C4, counterexample: a line whose rgs field already equals the
matched id is still rewritten when its src value differs from the expected
path; only the updated count stays at zero. -/
theorem claim_c4_counterexample :
    findMatchA mSega lineRgsOldSrc = some "sega32x".toList ∧
    searchQuoted rgsKey false lineRgsOldSrc = some "sega32x".toList ∧
    (processLineA mSega lineRgsOldSrc).2 = 0 ∧
    (processLineA mSega lineRgsOldSrc).1 ≠ lineRgsOldSrc := by
  decide

/-- Claim C4, amended: when the rgs field already holds the matched id, the
updated count does not increment and no rgs rewrite occurs; the whole line is
returned unmodified provided its src value also equals the expected
normalized path (otherwise only the src field is rewritten). -/
theorem claim_c4_amended (maps : Mapping) (line name : List Char) (r : SysRec)
    (cs : List Char)
    (hf : findMatchA maps line = some name) (hne : name ≠ [])
    (hg : dictGet? maps name = some r)
    (hsrc : searchQuoted srcKey true line = some cs)
    (hrgs : searchQuoted rgsKey false line = some name) :
    (processLineA maps line).2 = 0 ∧
    (cs = r.src → processLineA maps line = (line, 0)) := by
  constructor
  · simp [processLineA, hf, hne, hg, hsrc, hrgs]
  · intro hcs
    simp [processLineA, hf, hne, hg, hsrc, hrgs, hcs]

/-- Claim C4, witness for the amended theorem on a fully synchronized line. -/
theorem claim_c4_amended_witness :
    (findMatchA mSega lineSynced = some "sega32x".toList ∧
     "sega32x".toList ≠ ([] : List Char) ∧
     dictGet? mSega "sega32x".toList = some
       recSega ∧
     searchQuoted srcKey true lineSynced = some "sega/sega32x".toList ∧
     searchQuoted rgsKey false lineSynced = some "sega32x".toList) ∧
    ((processLineA mSega lineSynced).2 = 0 ∧
     ("sega/sega32x".toList =
        (recSega : SysRec).src →
       processLineA mSega lineSynced = (lineSynced, 0))) :=
  ⟨⟨by decide, by decide, by decide, by decide, by decide⟩,
   claim_c4_amended mSega lineSynced "sega32x".toList
     recSega
     "sega/sega32x".toList (by decide) (by decide) (by decide) (by decide)
     (by decide)⟩

/-- Claim C6, counterexample: both halves of the idempotence claim fail.
With two ids sharing a normalized path, the first run rewrites the line's
src (count 0), after which the second run matches the other id first through
the src pattern and rewrites the rgs field: the second run's counter is 1,
not 0, and its output file differs from its input.  Moreover, on the
comma-less marker line the second run re-increments the counter even though
the file is unchanged. -/
theorem claim_c6_counterexample :
    (update_yaml_file_rgs mTwo [lineTwoIds]).2.1 = 0 ∧
    (update_yaml_file_rgs mTwo
        ((update_yaml_file_rgs mTwo [lineTwoIds]).1)).2.1 = 1 ∧
    (update_yaml_file_rgs mTwo
        ((update_yaml_file_rgs mTwo [lineTwoIds]).1)).1 ≠
      (update_yaml_file_rgs mTwo [lineTwoIds]).1 ∧
    (update_yaml_file_rgs mSega [lineNoComma]).1 = [lineNoComma] ∧
    (update_yaml_file_rgs mSega
        ((update_yaml_file_rgs mSega [lineNoComma]).1)).2.1 = 1 := by
  decide

/-- Claim C6, amended: running the patch pass a second time on the file
produced by the first run, with the same mapping, changes no line and
increments no counter provided every line of the first run's output is
synchronized (any line it matches already carries the expected src value and
either the matched id in its rgs field, or no rgs field and no marker key).
Without that proviso both halves fail: the second run can re-increment the
added counter on an unchanged file, and can even rewrite a line when the
first run's src rewrite makes a different id match first (counterexample). -/
theorem claim_c6_amended (maps : Mapping) (linesA linesB : List (List Char))
    (hA : ∀ l ∈ (update_yaml_file_rgs maps linesA).1, syncedA maps l = true)
    (hB : ∀ l ∈ (update_yaml_file_src maps linesB).1, syncedB maps l = true) :
    (update_yaml_file_rgs maps
        ((update_yaml_file_rgs maps linesA).1)).1 =
      (update_yaml_file_rgs maps linesA).1 ∧
    (update_yaml_file_rgs maps
        ((update_yaml_file_rgs maps linesA).1)).2.1 = 0 ∧
    (update_yaml_file_src maps
        ((update_yaml_file_src maps linesB).1)).1 =
      (update_yaml_file_src maps linesB).1 ∧
    (update_yaml_file_src maps
        ((update_yaml_file_src maps linesB).1)).2.1 = 0 := by
  obtain ⟨a1, a2⟩ := update_rgs_noop hA
  obtain ⟨b1, b2⟩ := update_src_noop hB
  exact ⟨a1, a2, b1, b2⟩

/-- Claim C6, witness for the amended theorem on stale lines: the first run
rewrites both files (src update plus rgs insertion in variant A, src update
in variant B), its outputs are synchronized, and the second run is proven to
change nothing and count zero. -/
theorem claim_c6_amended_witness :
    (∀ l ∈ (update_yaml_file_rgs mSega [lineStale]).1,
      syncedA mSega l = true) ∧
    (∀ l ∈ (update_yaml_file_src mSega [lineStaleB]).1,
      syncedB mSega l = true) ∧
    (update_yaml_file_rgs mSega
        ((update_yaml_file_rgs mSega [lineStale]).1)).1 =
      (update_yaml_file_rgs mSega [lineStale]).1 ∧
    (update_yaml_file_rgs mSega
        ((update_yaml_file_rgs mSega [lineStale]).1)).2.1 = 0 ∧
    (update_yaml_file_src mSega
        ((update_yaml_file_src mSega [lineStaleB]).1)).1 =
      (update_yaml_file_src mSega [lineStaleB]).1 ∧
    (update_yaml_file_src mSega
        ((update_yaml_file_src mSega [lineStaleB]).1)).2.1 = 0 :=
  ⟨by decide, by decide,
   (claim_c6_amended mSega [lineStale] [lineStaleB]
     (by decide) (by decide)).1,
   (claim_c6_amended mSega [lineStale] [lineStaleB]
     (by decide) (by decide)).2.1,
   (claim_c6_amended mSega [lineStale] [lineStaleB]
     (by decide) (by decide)).2.2.1,
   (claim_c6_amended mSega [lineStale] [lineStaleB]
     (by decide) (by decide)).2.2.2⟩

/-- Claim C8: every known id whose text is absent from the final file appears
in the unresolved report and the completion status is 1; when the expected
rgs pattern is present for every id, the status is 0. -/
theorem claim_c8 (maps : Mapping) (lines : List (List Char)) :
    (∀ id, id ∈ keysOf maps →
      containsStr id ((update_yaml_file_rgs maps lines).1.flatten) = false →
      id ∈ (update_yaml_file_rgs maps lines).2.2 ∧
        mainStatus ((update_yaml_file_rgs maps lines).2.2) = 1) ∧
    ((∀ id ∈ keysOf maps,
        containsStr (rgsFoundPat id)
          ((update_yaml_file_rgs maps lines).1.flatten) = true) →
      mainStatus ((update_yaml_file_rgs maps lines).2.2) = 0) := by
  have hnf : (update_yaml_file_rgs maps lines).2.2 =
      (keysOf maps).filter
        (fun n => !containsStr (rgsFoundPat n)
          ((update_yaml_file_rgs maps lines).1.flatten)) := rfl
  constructor
  · intro id hid hcid
    have hpat : containsStr (rgsFoundPat id)
        ((update_yaml_file_rgs maps lines).1.flatten) = false := by
      cases hp : containsStr (rgsFoundPat id)
          ((update_yaml_file_rgs maps lines).1.flatten) with
      | false => rfl
      | true =>
        have hin : containsStr id
            ((update_yaml_file_rgs maps lines).1.flatten) = true :=
          containsStr_mono (x := "retrobat_rgs: \"".toList)
            (y := "\"".toList) hp
        rw [hin] at hcid
        simp at hcid
    have hmem : id ∈ (update_yaml_file_rgs maps lines).2.2 := by
      rw [hnf]
      exact List.mem_filter.mpr ⟨hid, by simp [hpat]⟩
    refine ⟨hmem, ?_⟩
    unfold mainStatus
    rw [if_neg (List.ne_nil_of_mem hmem)]
  · intro hall
    have hempty : (update_yaml_file_rgs maps lines).2.2 = [] := by
      rw [hnf, List.filter_eq_nil_iff]
      intro a ha
      simp [hall a ha]
    rw [hempty]
    rfl

/-- Claim C8, witness: an id absent from the file lands in the report with
status 1; a fully populated file gives status 0. -/
theorem claim_c8_witness :
    ("sega32x".toList ∈ keysOf mSega ∧
     containsStr "sega32x".toList
       ((update_yaml_file_rgs mSega ["x".toList]).1.flatten) = false ∧
     "sega32x".toList ∈ (update_yaml_file_rgs mSega ["x".toList]).2.2 ∧
     mainStatus ((update_yaml_file_rgs mSega ["x".toList]).2.2) = 1) ∧
    ((∀ id ∈ keysOf mSega,
        containsStr (rgsFoundPat id)
          ((update_yaml_file_rgs mSega [lineSynced]).1.flatten) = true) ∧
     mainStatus ((update_yaml_file_rgs mSega [lineSynced]).2.2) = 0) :=
  ⟨⟨by decide, by decide,
    ((claim_c8 mSega ["x".toList]).1 "sega32x".toList (by decide)
      (by decide)).1,
    ((claim_c8 mSega ["x".toList]).1 "sega32x".toList (by decide)
      (by decide)).2⟩,
   ⟨by decide, (claim_c8 mSega [lineSynced]).2 (by decide)⟩⟩

/-- Claim C9: variant B skips lines with no quoted marker id or an unknown
id unchanged, warns and skips known-id lines without a src field, and
otherwise rewrites the src field to the expected path, the updated count
incrementing exactly when the current value differs. -/
theorem claim_c9 (maps : Mapping) (line : List Char) :
    (searchQuoted retrobatKey true line = none →
      processLineB maps line = (line, 0, false)) ∧
    (∀ n, searchQuoted retrobatKey true line = some n →
      dictGet? maps n = none → processLineB maps line = (line, 0, false)) ∧
    (∀ n r, searchQuoted retrobatKey true line = some n →
      dictGet? maps n = some r → searchQuoted srcKey true line = none →
      processLineB maps line = (line, 0, true)) ∧
    (∀ n r cs, searchQuoted retrobatKey true line = some n →
      dictGet? maps n = some r → searchQuoted srcKey true line = some cs →
      processLineB maps line =
        (if cs ≠ r.src then
          (subQuoted srcKey true (srcFieldText r.src) line, 1, false)
         else (line, 0, false)) ∧
      ((processLineB maps line).2.1 = 1 ↔ cs ≠ r.src)) := by
  refine ⟨?_, ?_, ?_, ?_⟩
  · intro h
    simp [processLineB, h]
  · intro n h1 h2
    simp [processLineB, h1, h2]
  · intro n r h1 h2 h3
    simp [processLineB, h1, h2, h3]
  · intro n r cs h1 h2 h3
    by_cases hc : cs = r.src
    · simp [processLineB, h1, h2, h3, hc]
    · simp [processLineB, h1, h2, h3, hc]

/-- Claim C9, witness: the three non-trivial variant-B cases at concrete
lines (warning line, update line via the case equation, synchronized line). -/
theorem claim_c9_witness :
    (searchQuoted retrobatKey true "- \x7b retrobat: \"sega32x\" \x7d,".toList =
       some "sega32x".toList ∧
     processLineB mSega "- \x7b retrobat: \"sega32x\" \x7d,".toList =
       ("- \x7b retrobat: \"sega32x\" \x7d,".toList, 0, true)) ∧
    (processLineB mSega lineSyncedB = (lineSyncedB, 0, false) ∧
     ((processLineB mSega lineSyncedB).2.1 = 1 ↔
       "sega/sega32x".toList ≠
         (recSega : SysRec).src)) :=
  ⟨⟨by decide,
    (claim_c9 mSega "- \x7b retrobat: \"sega32x\" \x7d,".toList).2.2.1
      "sega32x".toList
      recSega
      (by decide) (by decide) (by decide)⟩,
   ⟨by simpa using
      ((claim_c9 mSega lineSyncedB).2.2.2 "sega32x".toList
        recSega
        "sega/sega32x".toList (by decide) (by decide) (by decide)).1,
    ((claim_c9 mSega lineSyncedB).2.2.2 "sega32x".toList
      recSega
      "sega/sega32x".toList (by decide) (by decide) (by decide)).2⟩⟩
